import Mathlib

/-!
Verification of the PDF question-answering (RAG) pipeline.

The repository wires two parallel pipelines (a CLI one in `pdf_rag_app/` and a
web one in `src/pdf_rag/`) around the same conceptual core: split PDF text into
overlapping chunks, embed the chunks, store them in a vector index, retrieve
top-k chunks for a question and generate an answer.

This file shallowly embeds the operations the claims are about:

* the chunking algorithm: both `TextProcessor` (src/pdf_rag/utils/text_processing.py)
  and `PDFLoader` (pdf_rag_app/pdf_loader.py) delegate to LangChain's
  `RecursiveCharacterTextSplitter` with `keep_separator=True`,
  `is_separator_regex=False` and `length_function=len`; the splitter's code
  (`TextSplitter.__init__`, `_merge_splits`, `_join_docs`,
  `RecursiveCharacterTextSplitter._split_text`, `_split_text_with_regex`)
  is embedded here over `List Char`, specialized to those fixed flags;
* `PDFLoader.load_pdf` (pdf_rag_app/pdf_loader.py);
* `RAGSystem.build_vector_store` / `setup_qa_chain` / `answer_question`
  (pdf_rag_app/rag.py) with FAISS persistence modelled at the record level;
* `answer_question` of the web UI (src/pdf_rag/ui/streamlit_app.py);
* `ConfigLoader.load_config` (src/pdf_rag/utils/config_loader.py).

Text is represented as `List Char`; machine strings that are only compared for
equality (model names, file paths, messages) stay `String`.
-/

/-! ## Chunker: LangChain `RecursiveCharacterTextSplitter` as used by the repo -/

/-- `occursIn sep text` is Python's `re.search(re.escape(sep), text)` for a
nonempty literal separator: does `sep` occur as a contiguous substring? -/
def occursIn (sep : List Char) : List Char → Bool
  | [] => sep.isPrefixOf []
  | c :: rest => sep.isPrefixOf (c :: rest) || occursIn sep rest

/-- Core of Python's `re.split("(sep)", text)` for a nonempty literal separator
`s0 :: srest`: the list of segments between non-overlapping leftmost
occurrences of the separator.  `fuel` is an upper bound on `text.length`
(callers pass `text.length`), making the recursion structural; the
`fuel = 0, text ≠ []` case is unreachable under that call convention. -/
def splitOnSepGo (s0 : Char) (srest : List Char) : Nat → List Char → List (List Char)
  | _, [] => [[]]
  | 0, _ :: _ => [[]]
  | n + 1, c :: rest =>
    if (s0 :: srest).isPrefixOf (c :: rest) then
      [] :: splitOnSepGo s0 srest n (rest.drop srest.length)
    else
      match splitOnSepGo s0 srest n rest with
      | [] => [[c]]
      | seg :: segs => (c :: seg) :: segs

/-- LangChain `_split_text_with_regex(text, separator, keep_separator=True)`
with a literal (re-escaped) separator: split into segments, re-attach each
separator occurrence to the front of the following segment, and drop empty
strings.  The empty separator means `list(text)` (split into characters). -/
def splitWithSep (sep : List Char) (text : List Char) : List (List Char) :=
  (match sep with
   | [] => text.map (fun c => [c])
   | s0 :: srest =>
     match splitOnSepGo s0 srest text.length text with
     | [] => []
     | seg :: segs => seg :: segs.map (fun sg => (s0 :: srest) ++ sg)
  ).filter (fun s => !s.isEmpty)

/-- The separator-selection scan at the top of
`RecursiveCharacterTextSplitter._split_text`: pick the first separator that is
`""` or occurs in the text (with the remaining separators as the new list);
if none matches, keep the last separator and no remaining list.
Python indexes `separators[-1]`, so the scan is only invoked on nonempty
lists; on `[]` we return `([], [])` (Python would raise `IndexError`). -/
def chooseSep : List (List Char) → List Char → List Char × List (List Char)
  | [], _ => ([], [])
  | s :: rest, text =>
    if s = [] then ([], [])
    else if occursIn s text then (s, rest)
    else if rest.isEmpty then (s, [])
    else chooseSep rest text

/-- Python `str.strip()` whitespace test, restricted to the ASCII whitespace
characters (Python also strips other Unicode space characters; none occur in
the concrete inputs analysed here, and the length bounds proved below do not
depend on which characters count as space). -/
def isPySpace (c : Char) : Bool :=
  c = ' ' || c = '\t' || c = '\n' || c = '\r' || c = '\x0b' || c = '\x0c'

/-- Python `text.strip()` on a character list. -/
def stripChars (l : List Char) : List Char :=
  ((l.dropWhile isPySpace).reverse.dropWhile isPySpace).reverse

/-- LangChain `TextSplitter._join_docs(docs, separator)` with `separator=""`
(the splitter always merges with the empty separator since
`keep_separator=True`): concatenate, strip whitespace, and drop the result
when it is empty. -/
def joinDocs (docs : List (List Char)) : Option (List Char) :=
  let text := stripChars docs.flatten
  if text.isEmpty then none else some text

/-- The `while` loop inside LangChain `TextSplitter._merge_splits` that pops
units off the front of `current_doc` after a chunk is emitted, keeping at most
`chunkOverlap` characters of trailing context.  `dlen` is the length of the
unit about to be appended; the separator is `""` so its length is 0.
`total` mirrors Python's running total (the sum of the lengths in the list). -/
def popLoop (size ov dlen : Nat) : List (List Char) → Nat → List (List Char) × Nat
  | [], total => ([], total)
  | c :: rest, total =>
    if ov < total ∨ (size < total + dlen ∧ 0 < total) then
      popLoop size ov dlen rest (total - c.length)
    else
      (c :: rest, total)

/-- LangChain `TextSplitter._merge_splits(splits, separator)` with
`separator = ""`: greedily pack units into chunks of at most `size`
characters, emitting a (stripped, nonempty) chunk whenever the next unit
would overflow, then retaining at most `ov` characters of trailing units as
overlap for the next chunk. -/
def mergeGo (size ov : Nat) : List (List Char) → List (List Char) → Nat → List (List Char)
  | [], current, _total => (joinDocs current).toList
  | d :: rest, current, total =>
    if size < total + d.length then
      if current.isEmpty then
        mergeGo size ov rest (current ++ [d]) (total + d.length)
      else
        (joinDocs current).toList ++
          (let r := popLoop size ov d.length current total
           mergeGo size ov rest (r.1 ++ [d]) (r.2 + d.length))
    else
      mergeGo size ov rest (current ++ [d]) (total + d.length)

/-- Entry point of `_merge_splits`: empty accumulator, zero total. -/
def mergeSplits (size ov : Nat) (splits : List (List Char)) : List (List Char) :=
  mergeGo size ov splits [] 0

/-- The per-piece loop of `RecursiveCharacterTextSplitter._split_text`:
pieces shorter than `size` are collected in `good` and merged; a piece at
least `size` long first flushes the collected run through `_merge_splits`,
then is either appended whole (`noMore = true`, i.e. `new_separators`
is empty) or recursively re-split by `sub`. -/
def processPieces (size ov : Nat) (sub : List Char → List (List Char)) (noMore : Bool) :
    List (List Char) → List (List Char) → List (List Char) → List (List Char)
  | [], good, acc => acc ++ (if good.isEmpty then [] else mergeSplits size ov good)
  | s :: rest, good, acc =>
    if s.length < size then
      processPieces size ov sub noMore rest (good ++ [s]) acc
    else
      processPieces size ov sub noMore rest []
        (acc ++ (if good.isEmpty then [] else mergeSplits size ov good) ++
          (if noMore then [s] else sub s))

/-- LangChain `RecursiveCharacterTextSplitter._split_text(text, separators)`.
`fuel` is an upper bound on `separators.length` (callers pass exactly that),
making the recursion structural: the recursive call uses the strictly shorter
remaining-separator list.  The `[]`-separators case is unreachable (Python
would raise `IndexError` on `separators[-1]`; every call site of the splitter
in the repository passes a nonempty list). -/
def splitTextFuel (size ov : Nat) : Nat → List (List Char) → List Char → List (List Char)
  | _, [], text => [text]
  | 0, _ :: _, text => [text]
  | n + 1, s :: rest, text =>
    let pr := chooseSep (s :: rest) text
    let splits := splitWithSep pr.1 text
    processPieces size ov (fun t => splitTextFuel size ov n pr.2 t) pr.2.isEmpty splits [] []

/-- `TextProcessor.split_text` / `RecursiveCharacterTextSplitter.split_text`:
split `text` with the configured separator priority list. -/
def split_text (size ov : Nat) (seps : List (List Char)) (text : List Char) : List (List Char) :=
  splitTextFuel size ov seps.length seps text

/-- Default separators of `TextProcessor.__init__`
(src/pdf_rag/utils/text_processing.py): paragraph break, line break,
sentence-ending period-space, space, character fallback. -/
def defaultSeparators : List (List Char) :=
  [['\n', '\n'], ['\n'], ['.', ' '], [' '], []]

/-- Default separators of LangChain's `RecursiveCharacterTextSplitter` itself,
used by `PDFLoader.__init__` (pdf_rag_app/pdf_loader.py), which passes none. -/
def langchainSeparators : List (List Char) :=
  [['\n', '\n'], ['\n'], [' '], []]

example :
    split_text 7 3 defaultSeparators ['a', 'a', ' ', 'b', 'b', ' ', 'c', 'c'] =
      [['a', 'a', ' ', 'b', 'b'], ['b', 'b', ' ', 'c', 'c']] := by decide

example :
    split_text 5 0 defaultSeparators ['a', 'b', ' ', 'c', 'd'] =
      [['a', 'b', ' ', 'c', 'd']] := by decide

/-! ## Chunker configuration check (LangChain `TextSplitter.__init__`) -/

/-- The validation in LangChain `TextSplitter.__init__`, the only check that
runs when `TextProcessor.__init__` or `PDFLoader.__init__` constructs its
`RecursiveCharacterTextSplitter`: raise `ValueError` when
`chunk_overlap > chunk_size`.  Neither repository constructor adds any check
of its own. -/
def textSplitter_checkConfig (chunk_size chunk_overlap : Int) : Except String Unit :=
  if chunk_size < chunk_overlap then
    Except.error "Got a larger chunk overlap than chunk size, should be smaller."
  else
    Except.ok ()

/-- `TextProcessor.__init__(chunk_size, chunk_overlap, separators)`
(src/pdf_rag/utils/text_processing.py): stores the values and builds the
LangChain splitter, whose constructor performs the only validation. -/
def textProcessor_init (chunk_size chunk_overlap : Int) : Except String Unit :=
  textSplitter_checkConfig chunk_size chunk_overlap

/-- `PDFLoader.__init__(chunk_size, chunk_overlap)` (pdf_rag_app/pdf_loader.py):
same situation, the LangChain constructor performs the only validation. -/
def pdfLoader_init (chunk_size chunk_overlap : Int) : Except String Unit :=
  textSplitter_checkConfig chunk_size chunk_overlap

/-! ## `PDFLoader.load_pdf` (pdf_rag_app/pdf_loader.py) -/

/-- A document as produced by PDF extraction and chunk splitting: text plus a
source identifier. -/
structure PDoc where
  text : String
  source : String
deriving DecidableEq, Repr

/-- `PDFLoader.load_pdf(file_path)`.  The `try` body runs PDF extraction
(`PyPDFLoader(file_path).load()`, whose outcome is the `extraction` argument)
and then chunk splitting (`self.text_splitter.split_documents(documents)`,
the `split` argument); `except Exception` catches any failure of either step,
prints a message, and returns the ordinary value `[]`.  The result is
`Except.ok` exactly when Python returns normally; no exception ever escapes,
so the result is always `Except.ok`. -/
def load_pdf (extraction : Except String (List PDoc))
    (split : List PDoc → Except String (List PDoc)) : Except String (List PDoc) :=
  match extraction with
  | Except.error _ => Except.ok []
  | Except.ok documents =>
    match split documents with
    | Except.error _ => Except.ok []
    | Except.ok chunks => Except.ok chunks

/-! ## FAISS vector store as used by `RAGSystem` (pdf_rag_app/rag.py)

`RAGSystem.build_vector_store` either loads a FAISS index folder from disk
(`FAISS.load_local(path, self.embeddings)`) or embeds the documents
(`FAISS.from_documents(documents, self.embeddings)`) and optionally saves it.
The FAISS index is modelled at the record level: a list of (vector, text,
source) records.  `DiskSnapshot.builtWith` records, for specification
purposes only, which embedding model produced the stored vectors; the on-disk
FAISS format does not contain this information and `FAISS_load_local` never
reads it. -/

/-- One indexed record: embedding vector, chunk text, source metadata. -/
structure IndexRecord where
  vec : List Int
  text : String
  source : String
deriving DecidableEq, Repr

/-- An on-disk FAISS index folder, plus (as ghost provenance, see above) the
embedding model that produced its vectors. -/
structure DiskSnapshot where
  builtWith : String
  records : List IndexRecord
deriving DecidableEq, Repr

/-- An in-memory FAISS vector store paired with the embeddings object the
`RAGSystem` is configured with (identified by its model name). -/
structure FaissStore where
  embeddingModel : String
  records : List IndexRecord
deriving DecidableEq, Repr

/-- `FAISS.load_local(path, embeddings)`: deserialize the stored records and
attach the currently configured embeddings object.  No compatibility check of
any kind is performed against the model that built the snapshot. -/
def FAISS_load_local (disk : DiskSnapshot) (embeddingModel : String) : FaissStore :=
  { embeddingModel := embeddingModel, records := disk.records }

/-- `FAISS.from_documents(documents, embeddings)`: embed every document text
with the configured model and index the resulting records. -/
def FAISS_from_documents (docs : List PDoc) (embed : String → List Int)
    (embeddingModel : String) : FaissStore :=
  { embeddingModel := embeddingModel
    records := docs.map (fun d => { vec := embed d.text, text := d.text, source := d.source }) }

/-- `vector_store.save_local(path)`: serialize the records.  The provenance
field records the model of the store that wrote the snapshot. -/
def save_local (store : FaissStore) : DiskSnapshot :=
  { builtWith := store.embeddingModel, records := store.records }

/-- Number of live records (the spec's `count()`). -/
def storeCount (store : FaissStore) : Nat :=
  store.records.length

/-- Squared Euclidean distance between two vectors (FAISS `IndexFlatL2`,
LangChain's default for `FAISS.from_documents`). -/
def sqDist (u v : List Int) : Int :=
  (List.zipWith (fun a b => (a - b) * (a - b)) u v).sum

/-- Insert a scored record into a list sorted by ascending score. -/
def insertByDist (x : Int × IndexRecord) : List (Int × IndexRecord) → List (Int × IndexRecord)
  | [] => [x]
  | y :: rest => if x.1 < y.1 then x :: y :: rest else y :: insertByDist x rest

/-- Sort scored records by ascending score. -/
def sortByDist (l : List (Int × IndexRecord)) : List (Int × IndexRecord) :=
  l.foldr insertByDist []

/-- Nearest-neighbor query by vector: score every record, order by ascending
distance, return the first `k`. -/
def queryStore (store : FaissStore) (qv : List Int) (k : Nat) : List (Int × IndexRecord) :=
  (sortByDist (store.records.map (fun r => (sqDist qv r.vec, r)))).take k

/-- Truthiness of the `vector_store_path` argument (`None` and `""` are falsy
in `if vector_store_path and os.path.exists(vector_store_path)`). -/
def pathTruthy : Option String → Bool
  | none => false
  | some s => !(s = "")

/-- `RAGSystem.build_vector_store(documents, vector_store_path)`
(pdf_rag_app/rag.py, lines 82-105).  If the path is truthy and exists on
disk, load the existing snapshot (the documents argument is not consulted);
otherwise raise `ValueError` when the documents list is empty, else embed the
documents and, when the path is truthy, save the new store.  The result pairs
the store Python assigns to `self.vector_store` with the snapshot written to
disk, if any. -/
def build_vector_store (docs : List PDoc) (path : Option String) (pathExists : Bool)
    (disk : DiskSnapshot) (embed : String → List Int) (embeddingModel : String) :
    Except String (FaissStore × Option DiskSnapshot) :=
  if pathTruthy path && pathExists then
    Except.ok (FAISS_load_local disk embeddingModel, none)
  else if docs.isEmpty then
    Except.error "No documents provided to build vector store"
  else
    let store := FAISS_from_documents docs embed embeddingModel
    Except.ok (store, if pathTruthy path then some (save_local store) else none)

/-! ## `RAGSystem` as a state machine (pdf_rag_app/rag.py) -/

/-- The mutable state of a `RAGSystem` instance: `self.vector_store` and
`self.qa_chain`, both initialized to `None` in `__init__`. -/
structure RAGState where
  vector_store : Option FaissStore
  qa_chain : Option Unit
deriving DecidableEq

/-- State of a freshly constructed `RAGSystem`. -/
def initRAGState : RAGState :=
  { vector_store := none, qa_chain := none }

/-- The operations a caller can invoke on a `RAGSystem`. -/
inductive RAGOp where
  | buildVectorStore (docs : List PDoc) (path : Option String) (pathExists : Bool)
      (disk : DiskSnapshot)
  | setupQAChain
  | answerQuestion (question : String)

/-- Outcome of one operation: the successor state, the raised error message
(if any), and whether the operation ran a retrieval against the index
(`RetrievalQA` invokes the retriever only when `answer_question` reaches
`self.qa_chain({...})`). -/
structure RAGStepResult where
  state : RAGState
  error : Option String
  retrievalRan : Bool

/-- One method call on a `RAGSystem` (pdf_rag_app/rag.py):
`build_vector_store` assigns `self.vector_store` on success;
`setup_qa_chain` raises `ValueError` unless the vector store is initialized,
else assigns `self.qa_chain`; `answer_question` raises `ValueError`
("QA chain not setup. Call setup_qa_chain first.") unless the QA chain is
set up, and only otherwise invokes the chain (retrieval + generation). -/
def ragStep (embed : String → List Int) (embeddingModel : String) (st : RAGState) :
    RAGOp → RAGStepResult
  | RAGOp.buildVectorStore docs path pathExists disk =>
    match build_vector_store docs path pathExists disk embed embeddingModel with
    | Except.ok (store, _) =>
      { state := { st with vector_store := some store }, error := none, retrievalRan := false }
    | Except.error e => { state := st, error := some e, retrievalRan := false }
  | RAGOp.setupQAChain =>
    match st.vector_store with
    | none =>
      { state := st
        error := some "Vector store not initialized. Call build_vector_store first."
        retrievalRan := false }
    | some _ =>
      { state := { st with qa_chain := some () }, error := none, retrievalRan := false }
  | RAGOp.answerQuestion _ =>
    match st.qa_chain with
    | none =>
      { state := st
        error := some "QA chain not setup. Call setup_qa_chain first."
        retrievalRan := false }
    | some _ => { state := st, error := none, retrievalRan := true }

/-- Run a sequence of operations from a starting state, keeping the final
state. -/
def ragRun (embed : String → List Int) (embeddingModel : String) (st : RAGState) :
    List RAGOp → RAGState
  | [] => st
  | op :: rest => ragRun embed embeddingModel (ragStep embed embeddingModel st op).state rest

/-- An operation that is not a successful document load: either it is not
`buildVectorStore` at all, or it is a `buildVectorStore` that fails (no
loadable snapshot at the path and an empty documents list). -/
def notSuccessfulLoad : RAGOp → Prop
  | RAGOp.buildVectorStore docs path pathExists _ =>
    ¬(pathTruthy path = true ∧ pathExists = true) ∧ docs = []
  | _ => True

/-! ## Web pipeline `answer_question` (src/pdf_rag/ui/streamlit_app.py) -/

/-- A retrieved document as returned by the web retriever: chunk text plus a
distance score (the UI reads `source['text']` and `source['distance']`). -/
structure RetrievedDoc where
  text : String
  distance : Int
deriving DecidableEq, Repr

/-- The fixed message `answer_question` returns when retrieval yields
nothing. -/
def noInfoMessage : String :=
  "I couldn't find any relevant information in the uploaded documents to answer your question."

/-- What `answer_question` returns: the bare no-information message, or the
`(answer, retrieved_docs)` pair. -/
inductive QAReturn where
  | noInfo (msg : String)
  | answered (answer : String) (sources : List RetrievedDoc)
deriving DecidableEq

/-- Result of `answer_question` together with whether the generation backend
(`st.session_state.llm.generate_with_context`) was invoked. -/
structure QAOutcome where
  ret : QAReturn
  llmCalled : Bool
deriving DecidableEq

/-- `answer_question(question)` (src/pdf_rag/ui/streamlit_app.py, lines
179-212), given the outcome `retrieved_docs` of
`st.session_state.retriever.retrieve(question)`: when the list is empty
(falsy), return the fixed message immediately; otherwise format the context,
call the LLM and return the answer with its sources.  `format_context` and
`generate` stand for the retriever's context formatter and
`llm.generate_with_context` (both live in repository modules outside src/ and
are only invoked, never inspected, here). -/
def answer_question (retrieved_docs : List RetrievedDoc)
    (format_context : List RetrievedDoc → String)
    (generate : String → String → String → String)
    (system_message : String) (question : String) : QAOutcome :=
  if retrieved_docs.isEmpty then
    { ret := QAReturn.noInfo noInfoMessage, llmCalled := false }
  else
    let context := format_context retrieved_docs
    let answer := generate question context system_message
    { ret := QAReturn.answered answer retrieved_docs, llmCalled := true }

/-! ## `ConfigLoader.load_config` (src/pdf_rag/utils/config_loader.py) -/

/-! YAML values as returned by `yaml.safe_load`, with sequences and mappings
as dedicated mutually inductive types so that recursion over them is
structural. -/
mutual
inductive YamlVal where
  | str (s : String)
  | num (n : Int)
  | boolean (b : Bool)
  | null
  | list (items : YamlSeq)
  | dict (entries : YamlMap)
deriving DecidableEq

inductive YamlSeq where
  | nil
  | cons (v : YamlVal) (rest : YamlSeq)
deriving DecidableEq

inductive YamlMap where
  | nil
  | cons (key : String) (v : YamlVal) (rest : YamlMap)
deriving DecidableEq
end

/-- The keys of a YAML mapping, in order. -/
def yamlKeys : YamlMap → List String
  | YamlMap.nil => []
  | YamlMap.cons k _ rest => k :: yamlKeys rest

/-- Is the character list of the form `${...}` (Python
`config.startswith("${") and config.endswith("}")`)? -/
def isEnvPlaceholder : List Char → Bool
  | '$' :: '\x7b' :: rest => !rest.isEmpty && rest.getLast? = some '\x7d'
  | _ => false

/-- The string case of `ConfigLoader._replace_env_vars`: replace `${VAR}`
with `os.getenv("VAR", config)`, i.e. the environment value when set and the
original string otherwise. -/
def replaceEnvStr (env : String → Option String) (s : String) : String :=
  if isEnvPlaceholder s.toList then
    match env (String.mk ((s.toList.drop 2).dropLast)) with
    | some v => v
    | none => s
  else s

/-! `ConfigLoader._replace_env_vars`: recursively replace environment
variable placeholders in dictionaries, lists and strings; leave every other
value unchanged. -/
mutual
def replaceEnvVars (env : String → Option String) : YamlVal → YamlVal
  | YamlVal.str s => YamlVal.str (replaceEnvStr env s)
  | YamlVal.num n => YamlVal.num n
  | YamlVal.boolean b => YamlVal.boolean b
  | YamlVal.null => YamlVal.null
  | YamlVal.list items => YamlVal.list (replaceEnvSeq env items)
  | YamlVal.dict entries => YamlVal.dict (replaceEnvMap env entries)

def replaceEnvSeq (env : String → Option String) : YamlSeq → YamlSeq
  | YamlSeq.nil => YamlSeq.nil
  | YamlSeq.cons v rest => YamlSeq.cons (replaceEnvVars env v) (replaceEnvSeq env rest)

def replaceEnvMap (env : String → Option String) : YamlMap → YamlMap
  | YamlMap.nil => YamlMap.nil
  | YamlMap.cons k v rest => YamlMap.cons k (replaceEnvVars env v) (replaceEnvMap env rest)
end

/-- `ConfigLoader.load_config(config_file)` (src/pdf_rag/utils/config_loader.py,
lines 31-60): raise `FileNotFoundError` when the file does not exist;
otherwise parse it with `yaml.safe_load` (outcome `parsed`; a parse failure is
logged and re-raised), substitute environment variables, cache and return the
resulting value.  No key of the configuration is inspected or validated. -/
def load_config (fileExists : Bool) (parsed : Except String YamlVal)
    (env : String → Option String) : Except String YamlVal :=
  if !fileExists then
    Except.error "Configuration file not found"
  else
    match parsed with
    | Except.error e => Except.error e
    | Except.ok config => Except.ok (replaceEnvVars env config)

/-! ## Claim C1: error propagation of `PDFLoader.load_pdf` -/

/-- C1 counterexample.  The claim states that a failing PDF extraction makes
`load_pdf` propagate a `DocumentUnreadable` error and never yields a
successful result with an empty chunk list.  In the code
(pdf_rag_app/pdf_loader.py, lines 40-47) `except Exception` catches the
extraction failure, prints a message and returns `[]`: at the concrete input
below the result is the ordinary success value `Except.ok []`, not an
error. -/
theorem C1_counterexample :
    load_pdf (Except.error "corrupt or unreadable file") (fun ds => Except.ok ds) =
      Except.ok [] := by
  rfl

/-- C1 amended: for every failing extraction outcome and every splitting
function, `load_pdf` swallows the failure and returns the ordinary success
value `[]` (an empty chunk list); no error reaches the caller. -/
theorem C1_main (msg : String) (split : List PDoc → Except String (List PDoc)) :
    load_pdf (Except.error msg) split = Except.ok [] := by
  rfl

/-! ## Claim C2: chunker configuration validation -/

/-- C2 counterexample.  The claim states that `chunkOverlap >= chunkSize`
always fails with an `InvalidConfiguration` error.  The only validation that
runs when `TextProcessor.__init__` or `PDFLoader.__init__` builds its
LangChain splitter rejects `chunk_overlap > chunk_size` strictly, so the
boundary case `chunk_overlap = chunk_size` is accepted: constructing a
`TextProcessor` with `chunk_size = chunk_overlap = 1000` succeeds. -/
theorem C2_counterexample :
    (1000 : Int) ≥ 1000 ∧ (textProcessor_init 1000 1000).isOk = true := by
  exact ⟨le_refl _, rfl⟩

/-- C2 amended: construction of the chunker (for both `TextProcessor` and
`PDFLoader`) fails exactly when `chunkOverlap > chunkSize`; the boundary case
`chunkOverlap = chunkSize` is accepted.  (That configuration still cannot
loop: `split_text` is a total function of this development.) -/
theorem C2_main (chunk_size chunk_overlap : Int) :
    ((textProcessor_init chunk_size chunk_overlap).isOk = true ↔
      chunk_overlap ≤ chunk_size) ∧
    ((pdfLoader_init chunk_size chunk_overlap).isOk = true ↔
      chunk_overlap ≤ chunk_size) := by
  constructor <;>
    · simp only [textProcessor_init, pdfLoader_init, textSplitter_checkConfig]
      split <;> rename_i h <;> simp [Except.isOk, Except.toBool] <;> omega

/-! ## Claim C3: empty retrieval short-circuits generation -/

/-- C3: when retrieval returns an empty result sequence, `answer_question`
(src/pdf_rag/ui/streamlit_app.py) returns the fixed "couldn't find relevant
information" message and never invokes the generation backend. -/
theorem C3_main (retrieved_docs : List RetrievedDoc)
    (format_context : List RetrievedDoc → String)
    (generate : String → String → String → String)
    (system_message question : String)
    (h : retrieved_docs = []) :
    answer_question retrieved_docs format_context generate system_message question =
      { ret := QAReturn.noInfo noInfoMessage, llmCalled := false } := by
  subst h
  rfl

/-- C3 witness: the theorem applied at a concrete empty retrieval. -/
theorem C3_witness :
    answer_question [] (fun _ => "") (fun _ _ _ => "fabricated") "sys" "What is this?" =
      { ret := QAReturn.noInfo noInfoMessage, llmCalled := false } :=
  C3_main [] (fun _ => "") (fun _ _ _ => "fabricated") "sys" "What is this?" rfl

/-! ## Claim C9: configuration loading and key validation -/

/-- C9 counterexample.  The claim states that configuration loading
recognizes exactly a fixed option set and fails fast on configurations with
unknown keys or missing required keys.  `ConfigLoader.load_config` performs
no key validation: the configuration below consists of a single unrecognized
key (and so is also missing every allegedly required key), yet loading
succeeds and returns it unchanged. -/
theorem C9_counterexample :
    load_config true
        (Except.ok (YamlVal.dict (YamlMap.cons "unrecognized_option" (YamlVal.num 5) YamlMap.nil)))
        (fun _ => none) =
      Except.ok (YamlVal.dict (YamlMap.cons "unrecognized_option" (YamlVal.num 5) YamlMap.nil)) := by
  rfl

/-- Helper: `_replace_env_vars` does not change the keys of a mapping. -/
theorem yamlKeys_replaceEnvMap (env : String → Option String) :
    (m : YamlMap) → yamlKeys (replaceEnvMap env m) = yamlKeys m
  | YamlMap.nil => rfl
  | YamlMap.cons k v rest => by
    simp [replaceEnvMap, yamlKeys, yamlKeys_replaceEnvMap env rest]

/-- C9 amended: `load_config` validates no keys at all.  Every configuration
file that exists and parses to a mapping is accepted, whatever its keys, and
the returned mapping has exactly the keys of the parsed file (environment
substitution touches only values).  The only load-time failures are a missing
file and a YAML parse error; missing keys surface later, at the point of use
(`initialize_components` indexes into the dict and catches the resulting
exception). -/
theorem C9_main (entries : YamlMap) (env : String → Option String) :
    ∃ out : YamlMap,
      load_config true (Except.ok (YamlVal.dict entries)) env =
        Except.ok (YamlVal.dict out) ∧
      yamlKeys out = yamlKeys entries := by
  refine ⟨replaceEnvMap env entries, rfl, yamlKeys_replaceEnvMap env entries⟩

/-! ## Claim C10: `build_vector_store` branch behavior -/

/-- C10: when the vector-store path is truthy and exists on disk,
`build_vector_store` loads the persisted snapshot and the documents argument
is ignored entirely (the result is the same for any two documents lists, and
equals the loaded store with nothing written); when no loadable path is
available and the documents list is empty, it raises `ValueError` instead of
creating an empty index. -/
theorem C10_main (docs docs2 : List PDoc) (path : Option String) (pathExists : Bool)
    (disk : DiskSnapshot) (embed : String → List Int) (embeddingModel : String) :
    (pathTruthy path = true → pathExists = true →
      build_vector_store docs path pathExists disk embed embeddingModel =
          Except.ok (FAISS_load_local disk embeddingModel, none) ∧
        build_vector_store docs path pathExists disk embed embeddingModel =
          build_vector_store docs2 path pathExists disk embed embeddingModel) ∧
    (¬(pathTruthy path = true ∧ pathExists = true) → docs = [] →
      build_vector_store docs path pathExists disk embed embeddingModel =
        Except.error "No documents provided to build vector store") := by
  constructor
  · intro h1 h2
    constructor <;> simp [build_vector_store, h1, h2]
  · intro h1 h2
    subst h2
    have : (pathTruthy path && pathExists) = false := by
      cases hp : pathTruthy path <;> cases he : pathExists <;> simp_all
    simp [build_vector_store, this]

/-- C10 witness: both branches at concrete inputs.  A nonempty documents list
with an existing path loads the snapshot untouched; an empty documents list
with no path fails. -/
theorem C10_witness :
    (build_vector_store [{ text := "chunk", source := "a.pdf" }] (some "vector_store/faiss_index")
        true { builtWith := "nomic-embed-text", records := [] } (fun _ => [0]) "nomic-embed-text" =
        Except.ok (FAISS_load_local { builtWith := "nomic-embed-text", records := [] }
          "nomic-embed-text", none)) ∧
    (build_vector_store [] none false { builtWith := "nomic-embed-text", records := [] }
        (fun _ => [0]) "nomic-embed-text" =
      Except.error "No documents provided to build vector store") :=
  ⟨(C10_main [{ text := "chunk", source := "a.pdf" }] [] (some "vector_store/faiss_index")
      true { builtWith := "nomic-embed-text", records := [] } (fun _ => [0])
      "nomic-embed-text").1 rfl rfl |>.1,
   (C10_main [] [] none false { builtWith := "nomic-embed-text", records := [] }
      (fun _ => [0]) "nomic-embed-text").2 (by simp [pathTruthy]) rfl⟩

/-! ## Claim C7: persistence round trip -/

/-- C7: saving an index and loading the snapshot back (with the same
configured embedding model, as `RAGSystem` does on a later run over the same
configuration) reproduces the same `count()` and, for every query vector and
every `k`, identical query results — same order and, with the records
restored exactly, the very same scores. -/
theorem C7_main (store : FaissStore) (qv : List Int) (k : Nat) :
    storeCount (FAISS_load_local (save_local store) store.embeddingModel) = storeCount store ∧
    queryStore (FAISS_load_local (save_local store) store.embeddingModel) qv k =
      queryStore store qv k := by
  cases store
  exact ⟨rfl, rfl⟩

/-! ## Claim C8: embedding-model mismatch on load -/

/-- C8 counterexample.  The claim states that loading a snapshot built with
embedding model "A" while the pipeline is configured with model "B" fails
with a `ModelMismatch` error.  `RAGSystem.build_vector_store` calls
`FAISS.load_local(path, self.embeddings)`, which deserializes the records and
attaches whatever embeddings object it is given; at the concrete input below
the load succeeds even though the snapshot was built by a different model. -/
theorem C8_counterexample :
    build_vector_store [] (some "vector_store/faiss_index") true
        { builtWith := "model-A", records := [{ vec := [1], text := "t", source := "s" }] }
        (fun _ => []) "model-B" =
      Except.ok ({ embeddingModel := "model-B",
                   records := [{ vec := [1], text := "t", source := "s" }] }, none) ∧
    "model-A" ≠ "model-B" := by
  exact ⟨rfl, by decide⟩

/-- C8 amended: loading performs no embedding-model check at all.  The loaded
store is independent of which model built the snapshot (only the stored
records and the currently configured model matter), so a mismatch is never
detected and queries proceed across mismatched models. -/
theorem C8_main (builtA builtB : String) (records : List IndexRecord)
    (docs : List PDoc) (path : Option String) (pathExists : Bool)
    (embed : String → List Int) (embeddingModel : String)
    (h : pathTruthy path = true ∧ pathExists = true) :
    build_vector_store docs path pathExists { builtWith := builtA, records := records }
        embed embeddingModel =
      build_vector_store docs path pathExists { builtWith := builtB, records := records }
        embed embeddingModel ∧
    build_vector_store docs path pathExists { builtWith := builtA, records := records }
        embed embeddingModel =
      Except.ok ({ embeddingModel := embeddingModel, records := records }, none) := by
  obtain ⟨h1, h2⟩ := h
  constructor <;> simp [build_vector_store, h1, h2, FAISS_load_local]

/-- C8 witness: the amended theorem at a concrete mismatched pair of
models. -/
theorem C8_witness :
    build_vector_store [] (some "p") true { builtWith := "model-A", records := [] }
        (fun _ => []) "model-B" =
      build_vector_store [] (some "p") true { builtWith := "model-C", records := [] }
        (fun _ => []) "model-B" :=
  (C8_main "model-A" "model-C" [] [] (some "p") true (fun _ => []) "model-B"
    ⟨rfl, rfl⟩).1

/-! ## Claim C4: `AnswerQuestion` before any successful `LoadDocument` -/

/-- Helper: a run containing no successful load leaves both `vector_store`
and `qa_chain` equal to `None`. -/
theorem ragRun_noLoad (embed : String → List Int) (embeddingModel : String)
    (ops : List RAGOp) :
    ∀ st : RAGState, (∀ op ∈ ops, notSuccessfulLoad op) →
      st.vector_store = none → st.qa_chain = none →
      (ragRun embed embeddingModel st ops).vector_store = none ∧
      (ragRun embed embeddingModel st ops).qa_chain = none := by
  induction ops with
  | nil => intro st _ h1 h2; exact ⟨h1, h2⟩
  | cons op rest ih =>
    intro st hops h1 h2
    have hop := hops op (List.mem_cons_self op rest)
    have hrest : ∀ o ∈ rest, notSuccessfulLoad o :=
      fun o ho => hops o (List.mem_cons_of_mem op ho)
    have hstep : (ragStep embed embeddingModel st op).state.vector_store = none ∧
        (ragStep embed embeddingModel st op).state.qa_chain = none := by
      cases op with
      | buildVectorStore docs path pathExists disk =>
        obtain ⟨hpath, hdocs⟩ := hop
        subst hdocs
        have hfalse : (pathTruthy path && pathExists) = false := by
          cases hp : pathTruthy path <;> cases he : pathExists <;> simp_all
        simp [ragStep, build_vector_store, hfalse, h1, h2]
      | setupQAChain => simp [ragStep, h1, h2]
      | answerQuestion q => cases hq : st.qa_chain <;> simp_all [ragStep]
    exact ih (ragStep embed embeddingModel st op).state hrest hstep.1 hstep.2

/-- C4: in every state reachable from a fresh `RAGSystem` by operations none
of which is a successful document load, invoking `answer_question` fails fast
with the `ValueError` "QA chain not setup. Call setup_qa_chain first." and
does not run retrieval against the (absent) index. -/
theorem C4_main (embed : String → List Int) (embeddingModel : String)
    (ops : List RAGOp) (question : String)
    (h : ∀ op ∈ ops, notSuccessfulLoad op) :
    (ragStep embed embeddingModel (ragRun embed embeddingModel initRAGState ops)
        (RAGOp.answerQuestion question)).error =
      some "QA chain not setup. Call setup_qa_chain first." ∧
    (ragStep embed embeddingModel (ragRun embed embeddingModel initRAGState ops)
        (RAGOp.answerQuestion question)).retrievalRan = false := by
  have hstate := ragRun_noLoad embed embeddingModel ops initRAGState h rfl rfl
  simp [ragStep, hstate.2]

/-- C4 witness: a concrete trace that tries to answer before any load — a
premature chain setup, a failing load (no documents, no saved index), then a
question — fails fast without retrieval. -/
theorem C4_witness :
    (ragStep (fun _ => []) "nomic-embed-text"
        (ragRun (fun _ => []) "nomic-embed-text" initRAGState
          [RAGOp.setupQAChain,
           RAGOp.buildVectorStore [] none false { builtWith := "nomic-embed-text", records := [] }])
        (RAGOp.answerQuestion "What is the capital of France?")).error =
      some "QA chain not setup. Call setup_qa_chain first." :=
  (C4_main (fun _ => []) "nomic-embed-text"
    [RAGOp.setupQAChain,
     RAGOp.buildVectorStore [] none false { builtWith := "nomic-embed-text", records := [] }]
    "What is the capital of France?"
    (by
      intro op hop
      simp only [List.mem_cons, List.mem_singleton] at hop
      rcases hop with h | h | h
      · subst h; trivial
      · subst h; exact ⟨by simp [pathTruthy], rfl⟩
      · cases h)).1

/-! ## Claim C5: chunk length bound

Helper lemmas about the merge phase and the separator scan, leading to the
bound: with a separator list that contains the terminal empty separator (as
both configurations in the repository do), every chunk `split_text` produces
has length at most `size`. -/

/-- Total character count of a list of units (Python's running `total`). -/
def sumLen (l : List (List Char)) : Nat :=
  (l.map List.length).sum

theorem sumLen_append (a b : List (List Char)) : sumLen (a ++ b) = sumLen a + sumLen b := by
  simp [sumLen]

theorem stripChars_length_le (l : List Char) : (stripChars l).length ≤ l.length := by
  unfold stripChars
  rw [List.length_reverse]
  calc ((l.dropWhile isPySpace).reverse.dropWhile isPySpace).length
      ≤ (l.dropWhile isPySpace).reverse.length :=
        (List.dropWhile_sublist _).length_le
    _ = (l.dropWhile isPySpace).length := List.length_reverse _
    _ ≤ l.length := (List.dropWhile_sublist _).length_le

/-- A chunk emitted by `_join_docs` is no longer than the total length of the
units it joins. -/
theorem joinDocs_length {docs : List (List Char)} {c : List Char}
    (h : joinDocs docs = some c) : c.length ≤ sumLen docs := by
  by_cases he : (stripChars docs.flatten).isEmpty
  · rw [joinDocs] at h
    simp [he] at h
  · have hsome : joinDocs docs = some (stripChars docs.flatten) := by
      rw [joinDocs]
      simp [he]
    have hc : c = stripChars docs.flatten := by
      rw [hsome] at h
      exact (Option.some_inj.mp h).symm
    subst hc
    calc (stripChars docs.flatten).length ≤ docs.flatten.length := stripChars_length_le _
      _ = sumLen docs := by simp [sumLen, List.length_flatten]

/-- Behavior of the overlap pop loop: starting from an accurate running
total, it returns a suffix of the unit list with an accurate total that is at
most the configured overlap and that leaves room for the next unit (or is
zero). -/
theorem popLoop_spec (size ov dlen : Nat) :
    ∀ (cur : List (List Char)) (total : Nat), total = sumLen cur →
      (∃ p, p ++ (popLoop size ov dlen cur total).1 = cur) ∧
      (popLoop size ov dlen cur total).2 = sumLen (popLoop size ov dlen cur total).1 ∧
      (popLoop size ov dlen cur total).2 ≤ ov ∧
      ((popLoop size ov dlen cur total).2 + dlen ≤ size ∨
        (popLoop size ov dlen cur total).2 = 0)
  | [], total, h => by
    have h0 : total = 0 := by simpa [sumLen] using h
    subst h0
    exact ⟨⟨[], rfl⟩, by simp [popLoop, sumLen], by simp [popLoop], Or.inr (by simp [popLoop])⟩
  | c :: rest, total, h => by
    rw [popLoop]
    split
    · have hrest : total - c.length = sumLen rest := by
        simp only [sumLen, List.map_cons, List.sum_cons] at h ⊢
        omega
      obtain ⟨⟨p, hp⟩, h2, h3, h4⟩ := popLoop_spec size ov dlen rest (total - c.length) hrest
      exact ⟨⟨c :: p, by simp [hp]⟩, h2, h3, h4⟩
    · rename_i hcond
      push_neg at hcond
      refine ⟨⟨[], rfl⟩, h, hcond.1, ?_⟩
      rcases Nat.lt_or_ge size (total + dlen) with hlt | hle
      · exact Or.inr (by omega)
      · exact Or.inl hle

/-- Merge-phase bound: if every unit fed to `_merge_splits` has length at
most `size` and the running total is accurate and within `size`, every
emitted chunk has length at most `size`. -/
theorem mergeGo_bound (size ov : Nat) :
    ∀ (splits cur : List (List Char)) (total : Nat),
      (∀ d ∈ splits, d.length ≤ size) → total = sumLen cur → total ≤ size →
      ∀ c ∈ mergeGo size ov splits cur total, c.length ≤ size
  | [], cur, total, _hs, htot, hle, c, hc => by
    rw [mergeGo] at hc
    rcases hj : joinDocs cur with _ | d
    · simp [hj] at hc
    · rw [hj] at hc
      simp only [Option.toList_some, List.mem_singleton] at hc
      subst hc
      calc c.length ≤ sumLen cur := joinDocs_length hj
        _ ≤ size := by omega
  | d :: rest, cur, total, hs, htot, hle, c, hc => by
    have hd : d.length ≤ size := hs d (List.mem_cons_self d rest)
    have hrest : ∀ x ∈ rest, x.length ≤ size := fun x hx => hs x (List.mem_cons_of_mem d hx)
    rw [mergeGo] at hc
    split at hc
    · rename_i hover
      split at hc
      · rename_i hemp
        have hcur : cur = [] := by simpa [List.isEmpty_iff] using hemp
        subst hcur
        have h0 : total = 0 := by simpa [sumLen] using htot
        exact mergeGo_bound size ov rest [d] (total + d.length) hrest
          (by simp [sumLen, h0]) (by omega) c hc
      · simp only [List.mem_append] at hc
        rcases hc with hc | hc
        · rcases hj : joinDocs cur with _ | e
          · simp [hj] at hc
          · rw [hj] at hc
            simp only [Option.toList_some, List.mem_singleton] at hc
            subst hc
            calc c.length ≤ sumLen cur := joinDocs_length hj
              _ ≤ size := by omega
        · obtain ⟨_, h2, _h3, h4⟩ := popLoop_spec size ov d.length cur total htot
          refine mergeGo_bound size ov rest
            ((popLoop size ov d.length cur total).1 ++ [d])
            ((popLoop size ov d.length cur total).2 + d.length) hrest ?_ ?_ c hc
          · rw [sumLen_append, ← h2]; simp [sumLen]
          · omega
    · exact mergeGo_bound size ov rest (cur ++ [d]) (total + d.length) hrest
        (by rw [sumLen_append, ← htot]; simp [sumLen]) (by omega) c hc

/-- The separator scan either picks the empty separator (with no remaining
separators) or a nonempty one whose remaining list still contains the empty
separator, whenever the list contains the empty separator. -/
theorem chooseSep_empty_mem :
    ∀ (seps : List (List Char)) (text : List Char), [] ∈ seps →
      chooseSep seps text = ([], []) ∨
      ((chooseSep seps text).1 ≠ [] ∧ [] ∈ (chooseSep seps text).2)
  | [], _, hmem => absurd hmem (List.not_mem_nil [])
  | s :: rest, text, hmem => by
    rw [chooseSep]
    by_cases hs : s = []
    · simp [hs]
    · have hrest : [] ∈ rest := by
        rcases List.mem_cons.mp hmem with h | h
        · exact absurd h.symm hs
        · exact h
      have hne : rest.isEmpty = false := by
        cases rest with
        | nil => exact absurd hrest (List.not_mem_nil [])
        | cons r rs => rfl
      rw [if_neg hs]
      by_cases hocc : occursIn s text = true
      · simp only [hocc, if_true]
        exact Or.inr ⟨hs, hrest⟩
      · simp only [hocc, Bool.false_eq_true, if_false, hne]
        exact chooseSep_empty_mem rest text hrest

/-- The remaining separator list after the scan is at most the tail of the
input list. -/
theorem chooseSep_len :
    ∀ (s : List Char) (rest : List (List Char)) (text : List Char),
      (chooseSep (s :: rest) text).2.length ≤ rest.length
  | s, rest, text => by
    rw [chooseSep]
    by_cases hs : s = []
    · simp [hs]
    · rw [if_neg hs]
      by_cases hocc : occursIn s text = true
      · simp [hocc]
      · simp only [hocc, Bool.false_eq_true, if_false]
        match rest with
        | [] => simp
        | r :: rs =>
          simp only [List.isEmpty_cons, Bool.false_eq_true, if_false]
          calc (chooseSep (r :: rs) text).2.length ≤ rs.length := chooseSep_len r rs text
            _ ≤ (r :: rs).length := by simp

/-- Character-level pieces (empty separator) are singletons. -/
theorem splitWithSep_nil_length {text s : List Char}
    (h : s ∈ splitWithSep [] text) : s.length = 1 := by
  unfold splitWithSep at h
  have hmem := List.mem_of_mem_filter h
  obtain ⟨c, _, hc⟩ := List.mem_map.mp hmem
  subst hc
  rfl

/-- Piece-loop bound: if every over-long piece is handled (appended whole or
recursively re-split) into chunks of length at most `size`, and the collected
short run and the accumulator are within bound, then every chunk produced by
the piece loop is within bound. -/
theorem processPieces_bound (size ov : Nat) (sub : List Char → List (List Char)) (noMore : Bool) :
    ∀ (splits good acc : List (List Char)),
      (∀ s ∈ splits, ¬(s.length < size) →
        ∀ c ∈ (if noMore then [s] else sub s), c.length ≤ size) →
      (∀ s ∈ good, s.length ≤ size) →
      (∀ c ∈ acc, c.length ≤ size) →
      ∀ c ∈ processPieces size ov sub noMore splits good acc, c.length ≤ size
  | [], good, acc, _hs, hg, ha, c, hc => by
    rw [processPieces] at hc
    rcases List.mem_append.mp hc with h | h
    · exact ha c h
    · split at h
      · exact absurd h (List.not_mem_nil c)
      · exact mergeGo_bound size ov good [] 0 hg rfl (Nat.zero_le _) c h
  | s :: rest, good, acc, hs, hg, ha, c, hc => by
    have hs_head := hs s (List.mem_cons_self s rest)
    have hs_rest : ∀ x ∈ rest, ¬(x.length < size) →
        ∀ c ∈ (if noMore then [x] else sub x), c.length ≤ size :=
      fun x hx => hs x (List.mem_cons_of_mem s hx)
    rw [processPieces] at hc
    split at hc
    · rename_i hlt
      refine processPieces_bound size ov sub noMore rest (good ++ [s]) acc hs_rest ?_ ha c hc
      intro x hx
      rcases List.mem_append.mp hx with h | h
      · exact hg x h
      · have : x = s := List.mem_singleton.mp h
        subst this
        omega
    · rename_i hge
      refine processPieces_bound size ov sub noMore rest [] _ hs_rest (by simp) ?_ c hc
      intro x hx
      rcases List.mem_append.mp hx with h | h
      · rcases List.mem_append.mp h with h2 | h2
        · exact ha x h2
        · split at h2
          · exact absurd h2 (List.not_mem_nil x)
          · exact mergeGo_bound size ov good [] 0 hg rfl (Nat.zero_le _) x h2
      · exact hs_head hge x h

/-- The recursive splitter bound: with enough fuel and a separator list
containing the terminal empty separator, every produced chunk has length at
most `size` (for `size ≥ 1`). -/
theorem splitTextFuel_bound (size ov : Nat) (hsize : 1 ≤ size) :
    ∀ (fuel : Nat) (seps : List (List Char)) (text : List Char),
      seps.length ≤ fuel → [] ∈ seps →
      ∀ c ∈ splitTextFuel size ov fuel seps text, c.length ≤ size := by
  intro fuel
  induction fuel with
  | zero =>
    intro seps text hlen hmem
    have : seps = [] := List.length_eq_zero.mp (Nat.le_zero.mp hlen)
    subst this
    exact absurd hmem (List.not_mem_nil [])
  | succ n ih =>
    intro seps text hlen hmem c hc
    match seps, hmem with
    | s :: rest, hmem =>
      rw [splitTextFuel] at hc
      refine processPieces_bound size ov
        (fun t => splitTextFuel size ov n (chooseSep (s :: rest) text).2 t)
        (chooseSep (s :: rest) text).2.isEmpty
        (splitWithSep (chooseSep (s :: rest) text).1 text) [] []
        ?_ (by simp) (by simp) c hc
      intro x hx _hxlen d hd
      rcases chooseSep_empty_mem (s :: rest) text hmem with hcase | hcase
      · rw [hcase] at hx hd
        simp only [List.isEmpty_nil, if_true] at hd
        have hxd : d = x := List.mem_singleton.mp hd
        subst hxd
        have := splitWithSep_nil_length hx
        omega
      · obtain ⟨_hne, hmem2⟩ := hcase
        have hne2 : (chooseSep (s :: rest) text).2.isEmpty = false := by
          cases hh : (chooseSep (s :: rest) text).2 with
          | nil => rw [hh] at hmem2; exact absurd hmem2 (List.not_mem_nil [])
          | cons a b => rfl
        rw [hne2] at hd
        simp only [Bool.false_eq_true, if_false] at hd
        have hlen2 : (chooseSep (s :: rest) text).2.length ≤ n := by
          have h1 := chooseSep_len s rest text
          simp only [List.length_cons] at hlen
          omega
        exact ih (chooseSep (s :: rest) text).2 x hlen2 hmem2 d hd

/-- C5: for every text, every `size ≥ 1`, every overlap and every separator
list containing the terminal empty-string separator (which the spec's
algorithm requires and both repository configurations satisfy — see
`defaultSeparators` and `langchainSeparators`), every chunk produced by
`split_text` has length at most `size`.  With the terminal empty separator
the minimal split unit is a single character, so the claim's exception
clause cannot fire and the bound holds without exception. -/
theorem C5_main (size ov : Nat) (seps : List (List Char)) (text : List Char)
    (hsep : [] ∈ seps) (hsize : 1 ≤ size) :
    ∀ c ∈ split_text size ov seps text, c.length ≤ size :=
  splitTextFuel_bound size ov hsize seps.length seps text (Nat.le_refl _) hsep

/-- C5 witness: the bound at the concrete example text, applied to the first
produced chunk. -/
theorem C5_witness : (['a', 'a', ' ', 'b', 'b'] : List Char).length ≤ 7 :=
  C5_main 7 3 defaultSeparators ['a', 'a', ' ', 'b', 'b', ' ', 'c', 'c'] (by decide)
    (by decide) ['a', 'a', ' ', 'b', 'b'] (by decide)

/-! ## Claim C6: overlap between adjacent chunks

The merge phase emits each chunk as the whitespace-stripped concatenation of
a run of whole split units (Python's `current_doc` at flush time), and the
overlap mechanism carries a *suffix of whole units* of total length at most
`chunkOverlap` from one flush to the next — not literally the last
`chunkOverlap` characters.  `flushSeq` records the `current_doc` snapshots
at each emission point of `_merge_splits`; the merge output is exactly the
per-snapshot `_join_docs`, with whitespace-only snapshots dropped. -/

/-- The sequence of `current_doc` snapshots at which `_merge_splits` attempts
to emit a chunk (including the final one after the loop). -/
def flushSeq (size ov : Nat) : List (List Char) → List (List Char) → Nat → List (List (List Char))
  | [], current, _total => [current]
  | d :: rest, current, total =>
    if size < total + d.length then
      if current.isEmpty then
        flushSeq size ov rest (current ++ [d]) (total + d.length)
      else
        current ::
          (let r := popLoop size ov d.length current total
           flushSeq size ov rest (r.1 ++ [d]) (r.2 + d.length))
    else
      flushSeq size ov rest (current ++ [d]) (total + d.length)

/-- The merge output is the flush sequence, joined and with whitespace-only
snapshots dropped. -/
theorem mergeGo_eq_flushSeq (size ov : Nat) :
    ∀ (splits cur : List (List Char)) (tot : Nat),
      mergeGo size ov splits cur tot = (flushSeq size ov splits cur tot).filterMap joinDocs
  | [], cur, tot => by
    rw [mergeGo, flushSeq, List.filterMap_cons]
    cases joinDocs cur <;> simp
  | d :: rest, cur, tot => by
    rw [mergeGo, flushSeq]
    split
    · split
      · exact mergeGo_eq_flushSeq size ov rest (cur ++ [d]) (tot + d.length)
      · rw [List.filterMap_cons,
          mergeGo_eq_flushSeq size ov rest
            ((popLoop size ov d.length cur tot).1 ++ [d])
            ((popLoop size ov d.length cur tot).2 + d.length)]
        cases joinDocs cur <;> simp
    · exact mergeGo_eq_flushSeq size ov rest (cur ++ [d]) (tot + d.length)

/-- The first snapshot of a flush sequence extends the incoming
`current_doc` on the right. -/
theorem flushSeq_head (size ov : Nat) :
    ∀ (splits cur : List (List Char)) (tot : Nat),
      ∃ ext tail, flushSeq size ov splits cur tot = (cur ++ ext) :: tail
  | [], cur, tot => ⟨[], [], by rw [flushSeq]; simp⟩
  | d :: rest, cur, tot => by
    rw [flushSeq]
    split
    · split
      · obtain ⟨ext, tail, heq⟩ := flushSeq_head size ov rest (cur ++ [d]) (tot + d.length)
        exact ⟨[d] ++ ext, tail, by rw [heq]; simp⟩
      · exact ⟨[], flushSeq size ov rest ((popLoop size ov d.length cur tot).1 ++ [d])
          ((popLoop size ov d.length cur tot).2 + d.length), by rw [List.append_nil]⟩
    · obtain ⟨ext, tail, heq⟩ := flushSeq_head size ov rest (cur ++ [d]) (tot + d.length)
      exact ⟨[d] ++ ext, tail, by rw [heq]; simp⟩

/-- The unit run `_merge_splits` carries over at each flush: the value of
`current_doc` immediately after the overlap pop loop, one entry per emission
boundary (so `flushSeq` always has exactly one more entry than `carrySeq`).
This is the program-defined overlap: the retained units become the front of
the next snapshot. -/
def carrySeq (size ov : Nat) : List (List Char) → List (List Char) → Nat → List (List (List Char))
  | [], _current, _total => []
  | d :: rest, current, total =>
    if size < total + d.length then
      if current.isEmpty then
        carrySeq size ov rest (current ++ [d]) (total + d.length)
      else
        (popLoop size ov d.length current total).1 ::
          carrySeq size ov rest ((popLoop size ov d.length current total).1 ++ [d])
            ((popLoop size ov d.length current total).2 + d.length)
    else
      carrySeq size ov rest (current ++ [d]) (total + d.length)

/-- There is exactly one carried run per pair of adjacent snapshots. -/
theorem flushSeq_length_carry (size ov : Nat) :
    ∀ (splits cur : List (List Char)) (tot : Nat),
      (flushSeq size ov splits cur tot).length = (carrySeq size ov splits cur tot).length + 1
  | [], cur, tot => by rw [flushSeq, carrySeq]; rfl
  | d :: rest, cur, tot => by
    rw [flushSeq, carrySeq]
    split
    · split
      · exact flushSeq_length_carry size ov rest (cur ++ [d]) (tot + d.length)
      · have hrec := flushSeq_length_carry size ov rest
          ((popLoop size ov d.length cur tot).1 ++ [d])
          ((popLoop size ov d.length cur tot).2 + d.length)
        simp only [List.length_cons]
        omega
    · exact flushSeq_length_carry size ov rest (cur ++ [d]) (tot + d.length)

/-- Anchored overlap property of the merge phase: at every boundary `n`
between adjacent flush snapshots, the run recorded in `carrySeq` — the units
Python's pop loop actually retains — is a suffix of snapshot `n`, a prefix
of snapshot `n+1`, and has total character length at most the configured
overlap.  (Stated via `drop`, so the snapshots and the carried run are the
heads of the dropped sequences.) -/
theorem flushCarry_drop (size ov : Nat) :
    ∀ (splits cur : List (List Char)) (tot : Nat), tot = sumLen cur →
    ∀ (n : Nat) (R : List (List Char)) (C2 : List (List (List Char)))
      (F1 F2 : List (List Char)) (G2 : List (List (List Char))),
      (carrySeq size ov splits cur tot).drop n = R :: C2 →
      (flushSeq size ov splits cur tot).drop n = F1 :: F2 :: G2 →
      (∃ p, p ++ R = F1) ∧ (∃ t, R ++ t = F2) ∧ R.flatten.length ≤ ov
  | [], cur, tot, _h, n, R, C2, F1, F2, G2, hdC, _hdG => by
    rw [carrySeq] at hdC
    simp at hdC
  | d :: rest, cur, tot, h, n, R, C2, F1, F2, G2, hdC, hdG => by
    rw [carrySeq] at hdC
    rw [flushSeq] at hdG
    by_cases hover : size < tot + d.length
    · rw [if_pos hover] at hdC hdG
      by_cases hemp : cur.isEmpty
      · rw [if_pos hemp] at hdC hdG
        exact flushCarry_drop size ov rest (cur ++ [d]) (tot + d.length)
          (by rw [sumLen_append, ← h]; simp [sumLen]) n R C2 F1 F2 G2 hdC hdG
      · rw [if_neg hemp] at hdC hdG
        obtain ⟨⟨p, hp⟩, h2, h3, _h4⟩ := popLoop_spec size ov d.length cur tot h
        have hinv : (popLoop size ov d.length cur tot).2 + d.length =
            sumLen ((popLoop size ov d.length cur tot).1 ++ [d]) := by
          rw [sumLen_append, ← h2]; simp [sumLen]
        cases n with
        | zero =>
          simp only [List.drop_zero] at hdC hdG
          injection hdC with hR hdC2
          injection hdG with hF1 hG2eq
          obtain ⟨ext, tail, hex⟩ := flushSeq_head size ov rest
            ((popLoop size ov d.length cur tot).1 ++ [d])
            ((popLoop size ov d.length cur tot).2 + d.length)
          have hF2 : ((popLoop size ov d.length cur tot).1 ++ [d]) ++ ext = F2 := by
            have hcmp := hex.symm.trans hG2eq
            simp only [List.cons.injEq] at hcmp
            exact hcmp.1
          subst hR
          subst hF1
          subst hF2
          refine ⟨⟨p, hp⟩, ⟨[d] ++ ext, by simp⟩, ?_⟩
          calc (popLoop size ov d.length cur tot).1.flatten.length
              = sumLen (popLoop size ov d.length cur tot).1 := by
                simp [sumLen, List.length_flatten]
            _ = (popLoop size ov d.length cur tot).2 := h2.symm
            _ ≤ ov := h3
        | succ k =>
          simp only [List.drop_succ_cons] at hdC hdG
          exact flushCarry_drop size ov rest
            ((popLoop size ov d.length cur tot).1 ++ [d])
            ((popLoop size ov d.length cur tot).2 + d.length) hinv k R C2 F1 F2 G2 hdC hdG
    · rw [if_neg hover] at hdC hdG
      exact flushCarry_drop size ov rest (cur ++ [d]) (tot + d.length)
        (by rw [sumLen_append, ← h]; simp [sumLen]) n R C2 F1 F2 G2 hdC hdG

/-- `_join_docs` of a snapshot that is not whitespace-only is its stripped
concatenation. -/
theorem joinDocs_of_ne_none {F : List (List Char)} (h : joinDocs F ≠ none) :
    joinDocs F = some (stripChars F.flatten) := by
  rw [joinDocs] at h ⊢
  by_cases he : (stripChars F.flatten).isEmpty
  · simp [he] at h
  · simp [he]

/-- When no snapshot is whitespace-only, the chunks are exactly the stripped
concatenations of the snapshots. -/
theorem filterMap_joinDocs_eq_map {G : List (List (List Char))}
    (h : ∀ F ∈ G, joinDocs F ≠ none) :
    G.filterMap joinDocs = G.map (fun F => stripChars F.flatten) := by
  induction G with
  | nil => rfl
  | cons F rest ih =>
    rw [List.filterMap_cons, joinDocs_of_ne_none (h F (List.mem_cons_self F rest)),
      List.map_cons, ih (fun x hx => h x (List.mem_cons_of_mem F hx))]

/-- When every piece is shorter than `size` (no recursive re-splitting
happens), the piece loop is exactly one `_merge_splits` run over all
pieces. -/
theorem processPieces_allGood (size ov : Nat) (sub : List Char → List (List Char))
    (noMore : Bool) :
    ∀ (splits good acc : List (List Char)), (∀ s ∈ splits, s.length < size) →
      processPieces size ov sub noMore splits good acc =
        acc ++ mergeGo size ov (good ++ splits) [] 0
  | [], good, acc, _h => by
    rw [processPieces]
    by_cases hg : good.isEmpty
    · have hnil : good = [] := by simpa [List.isEmpty_iff] using hg
      subst hnil
      rfl
    · simp [hg, mergeSplits]
  | s :: rest, good, acc, h => by
    rw [processPieces, if_pos (h s (List.mem_cons_self s rest)),
      processPieces_allGood size ov sub noMore rest (good ++ [s]) acc
        (fun x hx => h x (List.mem_cons_of_mem s hx))]
    simp

/-- Transport `List.get` along an equality of lists. -/
theorem get_congr {α : Type} {l l2 : List α} (heq : l = l2) (n : Nat)
    (h : n < l.length) (h2 : n < l2.length) : l.get ⟨n, h⟩ = l2.get ⟨n, h2⟩ := by
  subst heq
  rfl

/-- C6 counterexample.  The claim states that the last `overlap` characters
of chunk `n` are a prefix of chunk `n+1`.  Splitting `"aa bb cc"` with the
repository's default separators, `size = 7`, `overlap = 3` yields the chunks
`"aa bb"` and `"bb cc"` — adjacent, derived from contiguous source text
(a prefix and a suffix of the source that overlap in the middle) — yet the
last 3 characters of the first chunk, `" bb"`, are not a prefix of
`"bb cc"`: the overlap is carried as whole split units (here `" bb"`) and the
next chunk is whitespace-stripped, so the character-level prefix property
fails. -/
theorem C6_counterexample :
    split_text 7 3 defaultSeparators ['a', 'a', ' ', 'b', 'b', ' ', 'c', 'c'] =
      [['a', 'a', ' ', 'b', 'b'], ['b', 'b', ' ', 'c', 'c']] ∧
    ['a', 'a', ' ', 'b', 'b'] = (['a', 'a', ' ', 'b', 'b', ' ', 'c', 'c'] : List Char).take 5 ∧
    ['b', 'b', ' ', 'c', 'c'] = (['a', 'a', ' ', 'b', 'b', ' ', 'c', 'c'] : List Char).drop 3 ∧
    (((['a', 'a', ' ', 'b', 'b'] : List Char).drop
          ((['a', 'a', ' ', 'b', 'b'] : List Char).length - 3)).isPrefixOf
        (['b', 'b', ' ', 'c', 'c'] : List Char)) = false := by
  decide

/-- C6 amended: whenever the splitter reduces to a single merge pass (every
piece shorter than `size`; this covers every case in which adjacent chunks
share source text at all, since chunks coming out of deeper recursive
re-splits of distinct over-long pieces share nothing) and no flush is
whitespace-only, adjacent chunks `n`, `n+1` are the whitespace-stripped
concatenations of the program's flush snapshots `F1`, `F2` (the heads of the
flush sequence dropped at `n`), and the program's carried run `R` — the
units the overlap pop loop actually retains, recorded at position `n` of
`carrySeq` — is a suffix of `F1`'s unit run, a prefix of `F2`'s unit run,
and has total character length at most `overlap`.  The
last-`overlap`-characters-as-prefix form of the claim fails (see the
counterexample) because that carried overlap is quantized to whole units and
chunks are whitespace-stripped. -/
theorem C6_main (size ov : Nat) (seps : List (List Char)) (text : List Char)
    (hgood : ∀ s ∈ splitWithSep (chooseSep seps text).1 text, s.length < size)
    (hne : ∀ F ∈ flushSeq size ov (splitWithSep (chooseSep seps text).1 text) [] 0,
      joinDocs F ≠ none)
    (n : Nat) (hn : n + 1 < (split_text size ov seps text).length) :
    ∃ (R F1 F2 : List (List Char)) (C2 G2 : List (List (List Char))),
      (carrySeq size ov (splitWithSep (chooseSep seps text).1 text) [] 0).drop n =
        R :: C2 ∧
      (flushSeq size ov (splitWithSep (chooseSep seps text).1 text) [] 0).drop n =
        F1 :: F2 :: G2 ∧
      (∃ p, p ++ R = F1) ∧
      (∃ t, R ++ t = F2) ∧
      R.flatten.length ≤ ov ∧
      (split_text size ov seps text).get ⟨n, Nat.lt_of_succ_lt hn⟩ =
        stripChars F1.flatten ∧
      (split_text size ov seps text).get ⟨n + 1, hn⟩ = stripChars F2.flatten := by
  cases seps with
  | nil =>
    have hone : (split_text size ov ([] : List (List Char)) text).length = 1 := by
      simp [split_text, splitTextFuel]
    omega
  | cons s rest =>
    have heq : split_text size ov (s :: rest) text =
        (flushSeq size ov (splitWithSep (chooseSep (s :: rest) text).1 text) [] 0).map
          (fun F => stripChars F.flatten) := by
      show splitTextFuel size ov (rest.length + 1) (s :: rest) text = _
      rw [splitTextFuel]
      rw [processPieces_allGood size ov _ _ _ [] [] hgood]
      rw [List.nil_append, List.nil_append]
      exact (mergeGo_eq_flushSeq size ov _ [] 0).trans (filterMap_joinDocs_eq_map hne)
    have hlen : (split_text size ov (s :: rest) text).length =
        (flushSeq size ov (splitWithSep (chooseSep (s :: rest) text).1 text) [] 0).length := by
      rw [heq, List.length_map]
    have hmaplen : ((flushSeq size ov (splitWithSep (chooseSep (s :: rest) text).1 text)
        [] 0).map (fun F => stripChars F.flatten)).length =
        (flushSeq size ov (splitWithSep (chooseSep (s :: rest) text).1 text) [] 0).length :=
      List.length_map _ _
    have hcarrylen := flushSeq_length_carry size ov
      (splitWithSep (chooseSep (s :: rest) text).1 text) [] 0
    have hG2 : n + 1 <
        (flushSeq size ov (splitWithSep (chooseSep (s :: rest) text).1 text) [] 0).length := by
      omega
    have hG1 : n <
        (flushSeq size ov (splitWithSep (chooseSep (s :: rest) text).1 text) [] 0).length := by
      omega
    have hC : n <
        (carrySeq size ov (splitWithSep (chooseSep (s :: rest) text).1 text) [] 0).length := by
      omega
    have hdG : (flushSeq size ov (splitWithSep (chooseSep (s :: rest) text).1 text)
          [] 0).drop n =
        (flushSeq size ov (splitWithSep (chooseSep (s :: rest) text).1 text) [] 0).get
            ⟨n, hG1⟩ ::
          (flushSeq size ov (splitWithSep (chooseSep (s :: rest) text).1 text) [] 0).get
            ⟨n + 1, hG2⟩ ::
          (flushSeq size ov (splitWithSep (chooseSep (s :: rest) text).1 text) [] 0).drop
            (n + 2) := by
      rw [List.drop_eq_getElem_cons hG1, List.drop_eq_getElem_cons hG2]
      rfl
    have hdC : (carrySeq size ov (splitWithSep (chooseSep (s :: rest) text).1 text)
          [] 0).drop n =
        (carrySeq size ov (splitWithSep (chooseSep (s :: rest) text).1 text) [] 0).get
            ⟨n, hC⟩ ::
          (carrySeq size ov (splitWithSep (chooseSep (s :: rest) text).1 text) [] 0).drop
            (n + 1) := by
      rw [List.drop_eq_getElem_cons hC]
      rfl
    have hmain := flushCarry_drop size ov
      (splitWithSep (chooseSep (s :: rest) text).1 text) [] 0 rfl n _ _ _ _ _ hdC hdG
    refine ⟨_, _, _, _, _, hdC, hdG, hmain.1, hmain.2.1, hmain.2.2, ?_, ?_⟩
    · have e1 := get_congr heq n (Nat.lt_of_succ_lt hn) (by omega)
      have e2 : ((flushSeq size ov (splitWithSep (chooseSep (s :: rest) text).1 text) [] 0).map
            (fun F => stripChars F.flatten)).get ⟨n, by omega⟩ =
          stripChars ((flushSeq size ov (splitWithSep (chooseSep (s :: rest) text).1 text)
            [] 0).get ⟨n, hG1⟩).flatten := by
        simp [List.get_eq_getElem]
      rw [e1, e2]
    · have e1 := get_congr heq (n + 1) hn (by omega)
      have e2 : ((flushSeq size ov (splitWithSep (chooseSep (s :: rest) text).1 text) [] 0).map
            (fun F => stripChars F.flatten)).get ⟨n + 1, by omega⟩ =
          stripChars ((flushSeq size ov (splitWithSep (chooseSep (s :: rest) text).1 text)
            [] 0).get ⟨n + 1, hG2⟩).flatten := by
        simp [List.get_eq_getElem]
      rw [e1, e2]

/-- C6 witness: the amended theorem at the counterexample input.  For
`"aa bb cc"` (size 7, overlap 3) the carried run is the single unit `" bb"`
(3 characters, at most the overlap): a suffix of the first snapshot
`["aa", " bb"]` and a prefix of the second snapshot `[" bb", " cc"]`, whose
stripped concatenations are the chunks `"aa bb"` and `"bb cc"`. -/
theorem C6_witness :
    ∃ (R F1 F2 : List (List Char)) (C2 G2 : List (List (List Char))),
      (carrySeq 7 3 (splitWithSep
          (chooseSep defaultSeparators ['a', 'a', ' ', 'b', 'b', ' ', 'c', 'c']).1
          ['a', 'a', ' ', 'b', 'b', ' ', 'c', 'c']) [] 0).drop 0 = R :: C2 ∧
      (flushSeq 7 3 (splitWithSep
          (chooseSep defaultSeparators ['a', 'a', ' ', 'b', 'b', ' ', 'c', 'c']).1
          ['a', 'a', ' ', 'b', 'b', ' ', 'c', 'c']) [] 0).drop 0 = F1 :: F2 :: G2 ∧
      (∃ p, p ++ R = F1) ∧
      (∃ t, R ++ t = F2) ∧
      R.flatten.length ≤ 3 ∧
      (split_text 7 3 defaultSeparators ['a', 'a', ' ', 'b', 'b', ' ', 'c', 'c']).get
          ⟨0, by decide⟩ =
        stripChars F1.flatten ∧
      (split_text 7 3 defaultSeparators ['a', 'a', ' ', 'b', 'b', ' ', 'c', 'c']).get
          ⟨1, by decide⟩ =
        stripChars F2.flatten :=
  C6_main 7 3 defaultSeparators ['a', 'a', ' ', 'b', 'b', ' ', 'c', 'c']
    (by decide) (by decide) 0 (by decide)
